/-
  Verification of the module dependency resolver and cross-module symbol
  table of the `ts-for-gir` style code generator.

  Shallow embedding of:
  - `src/packages/cli/src/module-loader.ts` (class `ModuleLoader`)
  - the `SymTable` class (`getKey` / `get` / `set`)

  JavaScript objects used as string-keyed maps are embedded as association
  lists (`List (String × _)`), which preserves the insertion order that
  `Object.keys` exposes for the non-integer-like keys used here.  Mutation
  of shared collections is embedded as explicit state passing.  The
  unbounded recursions of the source (`traverseDependencies`,
  `loadGirModules`) take an explicit fuel argument; stabilization theorems
  show a computable fuel bound after which the result no longer changes,
  which is the shallow rendering of termination.
-/
import Mathlib

set_option autoImplicit false

/-! ## Data model -/

/-- A dependency entry of the dependency map: `{ namespace, version, packageName }`
(see `extendDependencyMapByGirModule` in `module-loader.ts`).  The field
`namespace` of the source is called `nspace` here because `namespace` is a
Lean keyword. -/
structure Dependency where
  nspace : String
  version : String
  packageName : String
deriving DecidableEq

/-- The part of a `GirModule` the resolver uses: its package name, its declared
direct dependencies (a list of package names) and the derived
`transitiveDependencies` field that `setTraverseDependenciesForModules`
overwrites. -/
structure GirModule where
  packageName : String
  dependencies : List String
  transitiveDependencies : List String
deriving DecidableEq

/-- `ResolveType` from `types/index.js`: whether a module was requested by the
user (`BY_HAND`) or pulled in as a dependency (`DEPENDENCE`). -/
inductive ResolveType where
  | byHand
  | dependence
deriving DecidableEq

/-- `GirModuleResolvedBy`: a loaded module together with its resolution origin. -/
structure GirModuleResolvedBy where
  packageName : String
  module : GirModule
  resolvedBy : ResolveType
deriving DecidableEq

/-- `GirModulesGrouped`: one group of modules sharing a (case-insensitive)
namespace.  The field `namespace` of the source is called `nspace` here. -/
structure GirModulesGrouped where
  nspace : String
  modules : List GirModuleResolvedBy
  hasConflict : Bool
deriving DecidableEq

/-- `AnswerVersion`: the outcome of the version prompt. -/
structure AnswerVersion where
  selected : List String
  unselected : List String
deriving DecidableEq

/-! ## JavaScript string primitives

The string operations of the source are embedded through the underlying
character list (`String.data`), so that every definition evaluates inside the
kernel.  Each primitive is extensionally the corresponding JavaScript
`String.prototype` method. -/

/-- JavaScript `s.startsWith(p)`. -/
def jsStartsWith (s p : String) : Bool :=
  p.data.isPrefixOf s.data

/-- JavaScript `s.includes(c)` for a single character `c`. -/
def jsIncludesChar (s : String) (c : Char) : Bool :=
  s.data.contains c

/-- JavaScript `s.toLowerCase()` (for the ASCII namespaces that occur here). -/
def jsToLower (s : String) : String :=
  ⟨s.data.map Char.toLower⟩

/-- JavaScript `s.split(sep)[0]` for a single-character separator: the text
before the first occurrence of `sep` (the whole string when `sep` does not
occur). -/
def jsFirstSegment (s : String) (sep : Char) : String :=
  ⟨s.data.takeWhile (fun c => ¬ c = sep)⟩

/-- Modelled from the spec: `splitModuleName` lives in
`src/packages/cli/src/utils.ts`, which is not part of the provided sources.
Per the spec's data model a package name is `"<Namespace>-<Version>"`
(e.g. `"Gtk-3.0"`), so the name is split at its last hyphen: everything
before it is the namespace, everything after it the version.  Returns
`(namespace, version)`. -/
def splitModuleName (packageName : String) : String × String :=
  let splits := packageName.data.splitOn '-'
  (⟨List.intercalate ['-'] splits.dropLast⟩, ⟨(splits.getLast?).getD []⟩)

/-! ## SymTable

The `SymTable` class of the generator.  Its static `items` object is embedded
as an association list passed explicitly; `getKey` is a pure function of the
owner module's package name and namespace (the constructor arguments
`modPackageName` / `modNamespace`), the dependency list and the reference.
The source logs a warning (`WARN_NOT_FOUND_PACKAGE_NAME(namespace,
implementation)`) exactly on the `null` branch; the second component of the
result records the namespace named by that warning (`none` = no warning). -/

namespace SymTable

/-- `SymTable.getKey` (source embedding).  Returns the computed key (or `none`)
together with the namespace named by the warning on the `null` branch.

Note: the source's final truthiness test `if (!packageName)` on the found
dependency is equivalent to the `find` failing, because a dependency
returned by `find` starts with the nonempty prefix `namespace + "-"` and is
therefore never the empty string. -/
def getKey (modPackageName modNamespace : String) (dependencies : List String)
    (implementation : String) : Option String × Option String :=
  if jsStartsWith implementation (modPackageName ++ ".") then
    (some implementation, none)
  else if jsStartsWith implementation (modNamespace ++ ".") then
    (some (modPackageName ++ "." ++ implementation), none)
  else if ¬ jsIncludesChar implementation '.' then
    (some (modPackageName ++ "." ++ modNamespace ++ "." ++ implementation), none)
  else
    let nspace := jsFirstSegment implementation '.'
    match dependencies.find? (fun dependency => jsStartsWith dependency (nspace ++ "-")) with
    | none => (none, some nspace)
    | some packageName => (some (packageName ++ "." ++ implementation), none)

/-- JavaScript object write `items[key] = v` on an association list with
pairwise distinct keys: overwrite the entry in place, or append a new one. -/
def itemsSet {α : Type} (items : List (String × α)) (key : String) (v : α) :
    List (String × α) :=
  match items with
  | [] => [(key, v)]
  | e :: rest => if e.1 = key then (key, v) :: rest else e :: itemsSet rest key v

/-- JavaScript object read `items[key]` (`none` when the key is absent). -/
def itemsGet {α : Type} (items : List (String × α)) (key : String) : Option α :=
  (items.find? (fun e => e.1 = key)).map (fun e => e.2)

/-- `SymTable.get`: compose `getKey` with the table lookup; `null` when the key
cannot be computed or is absent.  (The source's extra falsiness test
`!SymTable.items[key]` coincides with absence because stored elements are
objects, hence truthy.) -/
def get {α : Type} (items : List (String × α)) (modPackageName modNamespace : String)
    (dependencies : List String) (fullTypeName : String) : Option α :=
  match (getKey modPackageName modNamespace dependencies fullTypeName).1 with
  | none => none
  | some key => itemsGet items key

/-- `SymTable.set`: compute the key the same way and store the element, doing
nothing when the key cannot be computed. -/
def set {α : Type} (items : List (String × α)) (modPackageName modNamespace : String)
    (dependencies : List String) (fullTypeName : String) (girElement : α) :
    List (String × α) :=
  match (getKey modPackageName modNamespace dependencies fullTypeName).1 with
  | none => items
  | some key => itemsSet items key girElement

/-- The resolution rule as the spec's §4.5 states it, written from the spec's
words: (1) a reference already qualified by the owner package name is
returned unchanged; (2) a namespace-shorthand reference gets the owner
package name prepended; (3) a bare name gets owner package name and owner
namespace prepended; (4) otherwise the segment before the first separator
is a foreign namespace, resolved against the first dependency starting with
`foreignNamespace + "-"`, and on failure the result is `null` with a
warning naming the unresolved foreign namespace. -/
def getKeySpec (ownerPackageName ownerNamespace : String) (dependencies : List String)
    (reference : String) : Option String × Option String :=
  if jsStartsWith reference (ownerPackageName ++ ".") then
    (some reference, none)
  else if jsStartsWith reference (ownerNamespace ++ ".") then
    (some (ownerPackageName ++ "." ++ reference), none)
  else if ¬ jsIncludesChar reference '.' then
    (some (ownerPackageName ++ "." ++ ownerNamespace ++ "." ++ reference), none)
  else
    let foreignNamespace : String := ⟨reference.data.takeWhile (fun c => ¬ c = '.')⟩
    match dependencies.find? (fun d => jsStartsWith d (foreignNamespace ++ "-")) with
    | none => (none, some foreignNamespace)
    | some found => (some (found ++ "." ++ reference), none)

end SymTable

/-! ## Theorems: C2, C9, C10 -/

/-- C2: For every dependencies list, reference string, owner package name and
owner namespace, `SymTable.getKey` follows the four-step first-match
resolution order of the spec: owner-qualified references are returned
unchanged; owner-namespace shorthands get the owner package name prepended;
bare names get owner package name and namespace prepended; otherwise the
segment before the first separator is resolved against the first dependency
starting with `namespace + "-"`, yielding that dependency prepended, or
`null` with a warning naming the unresolved namespace. -/
theorem getKey_follows_spec_resolution_order :
    ∀ (dependencies : List String) (reference ownerPackageName ownerNamespace : String),
      SymTable.getKey ownerPackageName ownerNamespace dependencies reference =
        SymTable.getKeySpec ownerPackageName ownerNamespace dependencies reference := by
  intro dependencies reference ownerPackageName ownerNamespace
  rfl

theorem itemsGet_itemsSet_self {α : Type} (items : List (String × α)) (key : String) (v : α) :
    SymTable.itemsGet (SymTable.itemsSet items key v) key = some v := by
  induction items with
  | nil => simp [SymTable.itemsSet, SymTable.itemsGet]
  | cons e rest ih =>
    by_cases h : e.1 = key
    · simp [SymTable.itemsSet, SymTable.itemsGet, h]
    · simp only [SymTable.itemsSet, if_neg h]
      simp only [SymTable.itemsGet, List.find?] at ih ⊢
      simp [h, ih]

/-- C9: Round-trip of `SymTable.set` and `SymTable.get`: when
`getKey` yields a key, a `get` after `set` on the same owner and reference
returns the stored element; when `getKey` yields `null`, `set` leaves the
table unchanged and `get` returns `null`. -/
theorem symtable_set_get_roundtrip :
    ∀ {α : Type} (items : List (String × α)) (modPackageName modNamespace : String)
      (dependencies : List String) (reference : String) (el : α),
      ((SymTable.getKey modPackageName modNamespace dependencies reference).1.isSome = true →
        SymTable.get (SymTable.set items modPackageName modNamespace dependencies reference el)
          modPackageName modNamespace dependencies reference = some el) ∧
      ((SymTable.getKey modPackageName modNamespace dependencies reference).1 = none →
        SymTable.set items modPackageName modNamespace dependencies reference el = items ∧
        SymTable.get items modPackageName modNamespace dependencies reference = none) := by
  intro α items modPackageName modNamespace dependencies reference el
  constructor
  · intro hsome
    match hk : (SymTable.getKey modPackageName modNamespace dependencies reference).1 with
    | none => rw [hk] at hsome; simp at hsome
    | some key =>
      simp only [SymTable.get, SymTable.set, hk]
      exact itemsGet_itemsSet_self items key el
  · intro hnone
    refine ⟨?_, ?_⟩ <;> simp [SymTable.get, SymTable.set, hnone]

/-- Witness for C9 at concrete inputs: both the non-null branch (a bare
reference) and the null branch (an unresolvable foreign namespace). -/
theorem symtable_set_get_roundtrip_witness :
    SymTable.get (SymTable.set ([] : List (String × Nat)) "Gtk-3.0" "Gtk" ["Gdk-3.0"] "Window" 42)
        "Gtk-3.0" "Gtk" ["Gdk-3.0"] "Window" = some 42 ∧
      (SymTable.set ([("k", 7)] : List (String × Nat)) "Gtk-3.0" "Gtk" [] "Foo.Bar" 42 = [("k", 7)] ∧
        SymTable.get ([("k", 7)] : List (String × Nat)) "Gtk-3.0" "Gtk" [] "Foo.Bar" = none) :=
  ⟨(symtable_set_get_roundtrip [] "Gtk-3.0" "Gtk" ["Gdk-3.0"] "Window" 42).1 (by decide),
   (symtable_set_get_roundtrip [("k", 7)] "Gtk-3.0" "Gtk" [] "Foo.Bar" 42).2 (by decide)⟩

/-- C10: `getKey`'s `null` branch is unreachable unless the reference is a
multi-segment name in a foreign namespace: whenever the reference starts
with `ownerPackageName + "."`, or starts with `ownerNamespace + "."`, or
contains no `'.'` at all, `getKey` returns a non-null string. -/
theorem getKey_none_only_for_foreign_references :
    ∀ (modPackageName modNamespace : String) (dependencies : List String)
      (reference : String),
      (jsStartsWith reference (modPackageName ++ ".") = true ∨
        jsStartsWith reference (modNamespace ++ ".") = true ∨
        jsIncludesChar reference '.' = false) →
      ((SymTable.getKey modPackageName modNamespace dependencies reference).1.isSome = true) := by
  intro modPackageName modNamespace dependencies reference h
  unfold SymTable.getKey
  by_cases h1 : jsStartsWith reference (modPackageName ++ ".") = true
  · simp [h1]
  · by_cases h2 : jsStartsWith reference (modNamespace ++ ".") = true
    · simp [h1, h2]
    · rcases h with h | h | h
      · exact absurd h h1
      · exact absurd h h2
      · simp [h1, h2, h]

/-- Witness for C10 at concrete inputs, one per disjunct. -/
theorem getKey_none_only_for_foreign_references_witness :
    ((SymTable.getKey "Gtk-3.0" "Gtk" [] "Gtk-3.0.Gtk.Window").1.isSome = true) ∧
      ((SymTable.getKey "Gtk-3.0" "Gtk" [] "Gtk.Window").1.isSome = true) ∧
      ((SymTable.getKey "Gtk-3.0" "Gtk" [] "Window").1.isSome = true) :=
  ⟨getKey_none_only_for_foreign_references "Gtk-3.0" "Gtk" [] "Gtk-3.0.Gtk.Window"
      (Or.inl (by decide)),
   getKey_none_only_for_foreign_references "Gtk-3.0" "Gtk" [] "Gtk.Window"
      (Or.inr (Or.inl (by decide))),
   getKey_none_only_for_foreign_references "Gtk-3.0" "Gtk" [] "Window"
      (Or.inr (Or.inr (by decide)))⟩

/-! ## Conflict Grouper (`groupGirFiles`)

`groupGirFiles` walks the module list and groups entries by the lowercased
namespace of their package name, using a JavaScript object keyed by that id;
the object is embedded as an association list in insertion order. -/

/-- The group key of a module: the lowercased namespace of its package name. -/
def keyOf (m : GirModuleResolvedBy) : String :=
  jsToLower (splitModuleName m.packageName).1

/-- One iteration of the `groupGirFiles` loop body: either create the group
`{ namespace, modules: [m], hasConflict: false }` under the key `id`, or push
`m` onto the existing group and set its conflict flag. -/
def updateGroup : List (String × GirModulesGrouped) → String → String → GirModuleResolvedBy →
    List (String × GirModulesGrouped)
  | [], id, ns, m => [(id, ⟨ns, [m], false⟩)]
  | (k, g) :: rest, id, ns, m =>
    if k = id then (k, { g with modules := g.modules ++ [m], hasConflict := true }) :: rest
    else (k, g) :: updateGroup rest id ns m

/-- The loop body of `groupGirFiles` for one module. -/
def groupStep (acc : List (String × GirModulesGrouped)) (m : GirModuleResolvedBy) :
    List (String × GirModulesGrouped) :=
  let ns := (splitModuleName m.packageName).1
  updateGroup acc (jsToLower ns) ns m

/-- `ModuleLoader.groupGirFiles`. -/
def groupGirFiles (resolveGirModules : List GirModuleResolvedBy) :
    List (String × GirModulesGrouped) :=
  resolveGirModules.foldl groupStep []

/-- The loop invariant of `groupGirFiles`: after processing the prefix `pre`,
every group holds exactly the members of `pre` with its key (in input order),
its conflict flag says whether it has at least two members, its key is its
canonical namespace lowercased, every processed module's key has a group, the
keys are pairwise distinct and every group is nonempty. -/
def GroupInv (pre : List GirModuleResolvedBy) (gs : List (String × GirModulesGrouped)) : Prop :=
  (∀ kg ∈ gs, kg.2.modules = pre.filter (fun m => keyOf m = kg.1)) ∧
  (∀ kg ∈ gs, kg.2.hasConflict = decide (2 ≤ kg.2.modules.length)) ∧
  (∀ kg ∈ gs, jsToLower kg.2.nspace = kg.1) ∧
  (∀ m ∈ pre, keyOf m ∈ gs.map Prod.fst) ∧
  (gs.map Prod.fst).Nodup ∧
  (∀ kg ∈ gs, kg.2.modules ≠ [])

theorem updateGroup_of_notMem (gs : List (String × GirModulesGrouped)) (id ns : String)
    (m : GirModuleResolvedBy) (h : id ∉ gs.map Prod.fst) :
    updateGroup gs id ns m = gs ++ [(id, ⟨ns, [m], false⟩)] := by
  induction gs with
  | nil => rfl
  | cons kg rest ih =>
    obtain ⟨k, g⟩ := kg
    simp only [List.map_cons, List.mem_cons, not_or] at h
    rw [updateGroup, if_neg (fun hk => h.1 hk.symm), ih h.2]
    rfl

theorem updateGroup_of_mem (gs : List (String × GirModulesGrouped)) (id ns : String)
    (m : GirModuleResolvedBy) (hmem : id ∈ gs.map Prod.fst)
    (hnd : (gs.map Prod.fst).Nodup) :
    updateGroup gs id ns m = gs.map (fun kg =>
      if kg.1 = id then (kg.1, { kg.2 with modules := kg.2.modules ++ [m], hasConflict := true })
      else kg) := by
  induction gs with
  | nil => simp at hmem
  | cons kg rest ih =>
    obtain ⟨k, g⟩ := kg
    simp only [List.map_cons, List.nodup_cons] at hnd
    by_cases hk : k = id
    · subst hk
      rw [updateGroup, if_pos rfl]
      simp only [List.map_cons, if_pos rfl, List.cons.injEq, true_and]
      have : ∀ kg ∈ rest, (fun kg : String × GirModulesGrouped =>
          if kg.1 = k then (kg.1, { kg.2 with modules := kg.2.modules ++ [m], hasConflict := true })
          else kg) kg = kg := by
        intro kg hkg
        have : ¬ kg.1 = k := fun he => hnd.1 (he ▸ List.mem_map_of_mem Prod.fst hkg)
        simp [this]
      rw [List.map_congr_left this]
      simp
    · have hmem' : id ∈ rest.map Prod.fst := by
        simp only [List.map_cons, List.mem_cons] at hmem
        rcases hmem with h | h
        · exact absurd h.symm hk
        · exact h
      rw [updateGroup, if_neg hk, ih hmem' hnd.2]
      simp [hk]

theorem groupStep_inv (pre : List GirModuleResolvedBy) (gs : List (String × GirModulesGrouped))
    (m : GirModuleResolvedBy) (hinv : GroupInv pre gs) :
    GroupInv (pre ++ [m]) (groupStep gs m) := by
  obtain ⟨hfil, hconf, hkey, hcomp, hnd, hne⟩ := hinv
  have hstep : groupStep gs m = updateGroup gs (keyOf m) (splitModuleName m.packageName).1 m := rfl
  by_cases hmem : keyOf m ∈ gs.map Prod.fst
  · rw [hstep, updateGroup_of_mem gs _ _ m hmem hnd]
    refine ⟨?_, ?_, ?_, ?_, ?_, ?_⟩
    · intro kg hkg
      obtain ⟨kg0, hkg0, hf⟩ := List.mem_map.mp hkg
      by_cases hk : kg0.1 = keyOf m
      · simp only [if_pos hk] at hf
        subst hf
        simp only [List.filter_append, hfil kg0 hkg0, hk]
        simp [List.filter_cons]
      · simp only [if_neg hk] at hf
        subst hf
        have hk' : ¬ keyOf m = kg0.1 := fun he => hk he.symm
        simp only [List.filter_append, hfil kg0 hkg0]
        simp [List.filter_cons, hk']
    · intro kg hkg
      obtain ⟨kg0, hkg0, hf⟩ := List.mem_map.mp hkg
      by_cases hk : kg0.1 = keyOf m
      · simp only [if_pos hk] at hf
        subst hf
        simp only [List.length_append, List.length_singleton]
        have hlen : 1 ≤ kg0.2.modules.length := by
          have := hne kg0 hkg0
          cases hmods : kg0.2.modules with
          | nil => exact absurd hmods this
          | cons a l => simp [hmods]
        simp [decide_eq_true_eq]
        omega
      · simp only [if_neg hk] at hf
        subst hf
        exact hconf kg0 hkg0
    · intro kg hkg
      obtain ⟨kg0, hkg0, hf⟩ := List.mem_map.mp hkg
      by_cases hk : kg0.1 = keyOf m
      · simp only [if_pos hk] at hf
        subst hf
        simpa [hk] using hkey kg0 hkg0
      · simp only [if_neg hk] at hf
        subst hf
        exact hkey kg0 hkg0
    · intro x hx
      have hkeys : (gs.map (fun kg =>
          if kg.1 = keyOf m then
            (kg.1, { kg.2 with modules := kg.2.modules ++ [m], hasConflict := true })
          else kg)).map Prod.fst = gs.map Prod.fst := by
        rw [List.map_map]
        refine List.map_congr_left ?_
        intro kg _
        by_cases hk : kg.1 = keyOf m <;> simp [hk]
      rw [hkeys]
      rcases List.mem_append.mp hx with h | h
      · exact hcomp x h
      · simp only [List.mem_singleton] at h
        subst h
        exact hmem
    · have hkeys : (gs.map (fun kg =>
          if kg.1 = keyOf m then
            (kg.1, { kg.2 with modules := kg.2.modules ++ [m], hasConflict := true })
          else kg)).map Prod.fst = gs.map Prod.fst := by
        rw [List.map_map]
        refine List.map_congr_left ?_
        intro kg _
        by_cases hk : kg.1 = keyOf m <;> simp [hk]
      rw [hkeys]
      exact hnd
    · intro kg hkg
      obtain ⟨kg0, hkg0, hf⟩ := List.mem_map.mp hkg
      by_cases hk : kg0.1 = keyOf m
      · simp only [if_pos hk] at hf
        subst hf
        simp
      · simp only [if_neg hk] at hf
        subst hf
        exact hne kg0 hkg0
  · rw [hstep, updateGroup_of_notMem gs _ _ m hmem]
    have hprefil : pre.filter (fun x => keyOf x = keyOf m) = [] := by
      rw [List.filter_eq_nil_iff]
      intro x hx hxk
      exact hmem (by
        have : keyOf x = keyOf m := by simpa using hxk
        exact this ▸ hcomp x hx)
    refine ⟨?_, ?_, ?_, ?_, ?_, ?_⟩
    · intro kg hkg
      rcases List.mem_append.mp hkg with h | h
      · have hk : ¬ keyOf m = kg.1 := fun he =>
          hmem (he ▸ List.mem_map_of_mem Prod.fst h)
        simp only [List.filter_append, hfil kg h]
        simp [List.filter_cons, hk]
      · simp only [List.mem_singleton] at h
        subst h
        simp only [List.filter_append, hprefil]
        simp [List.filter_cons]
    · intro kg hkg
      rcases List.mem_append.mp hkg with h | h
      · exact hconf kg h
      · simp only [List.mem_singleton] at h
        subst h
        simp
    · intro kg hkg
      rcases List.mem_append.mp hkg with h | h
      · exact hkey kg h
      · simp only [List.mem_singleton] at h
        subst h
        rfl
    · intro x hx
      simp only [List.map_append, List.map_cons, List.map_nil]
      rcases List.mem_append.mp hx with h | h
      · exact List.mem_append.mpr (Or.inl (hcomp x h))
      · simp only [List.mem_singleton] at h
        subst h
        exact List.mem_append.mpr (Or.inr (by simp))
    · simp only [List.map_append, List.map_cons, List.map_nil]
      rw [List.nodup_append]
      exact ⟨hnd, List.nodup_singleton _, by simpa using hmem⟩
    · intro kg hkg
      rcases List.mem_append.mp hkg with h | h
      · exact hne kg h
      · simp only [List.mem_singleton] at h
        subst h
        simp

theorem groupAux_inv (mods : List GirModuleResolvedBy) :
    ∀ (pre : List GirModuleResolvedBy) (gs : List (String × GirModulesGrouped)),
      GroupInv pre gs → GroupInv (pre ++ mods) (mods.foldl groupStep gs) := by
  induction mods with
  | nil => intro pre gs h; simpa using h
  | cons m rest ih =>
    intro pre gs h
    have h1 := groupStep_inv pre gs m h
    have h2 := ih (pre ++ [m]) (groupStep gs m) h1
    simpa using h2

theorem groupGirFiles_inv (mods : List GirModuleResolvedBy) :
    GroupInv mods (groupGirFiles mods) := by
  have h0 : GroupInv [] [] := by
    refine ⟨?_, ?_, ?_, ?_, ?_, ?_⟩ <;> simp
  simpa using groupAux_inv mods [] [] h0

/-- C7: `groupGirFiles` is a pure function partitioning modules by lowercased
namespace: every group holds exactly the input modules whose lowercased
namespace equals its key, in input (discovery) order; the key is the
lowercased namespace (both of the canonical namespace and of every member);
and the conflict flag is true iff the group accumulated two or more
modules. -/
theorem groupGirFiles_partitions_by_lowercased_namespace :
    ∀ (mods : List GirModuleResolvedBy) (k : String) (g : GirModulesGrouped),
      (k, g) ∈ groupGirFiles mods →
        g.modules = mods.filter (fun m => keyOf m = k) ∧
        (∀ m ∈ g.modules, keyOf m = k) ∧
        jsToLower g.nspace = k ∧
        (g.hasConflict = true ↔ 2 ≤ g.modules.length) := by
  intro mods k g hmem
  obtain ⟨hfil, hconf, hkey, _, _, _⟩ := groupGirFiles_inv mods
  refine ⟨hfil (k, g) hmem, ?_, hkey (k, g) hmem, ?_⟩
  · intro m hm
    rw [hfil (k, g) hmem] at hm
    exact of_decide_eq_true (List.mem_filter.mp hm).2
  · rw [hconf (k, g) hmem]
    simp

/-- Witness for C7: grouping `Gtk-3.0` and `Gtk-4.0` yields the single group
keyed `"gtk"` with both members in discovery order and the conflict flag
set. -/
theorem groupGirFiles_partitions_witness :
    (GirModulesGrouped.mk "Gtk"
          [⟨"Gtk-3.0", ⟨"Gtk-3.0", [], []⟩, ResolveType.byHand⟩,
            ⟨"Gtk-4.0", ⟨"Gtk-4.0", [], []⟩, ResolveType.byHand⟩] true).modules =
        [⟨"Gtk-3.0", ⟨"Gtk-3.0", [], []⟩, ResolveType.byHand⟩,
          ⟨"Gtk-4.0", ⟨"Gtk-4.0", [], []⟩, ResolveType.byHand⟩].filter
          (fun m => keyOf m = "gtk") ∧
      (∀ m ∈ (GirModulesGrouped.mk "Gtk"
          [⟨"Gtk-3.0", ⟨"Gtk-3.0", [], []⟩, ResolveType.byHand⟩,
            ⟨"Gtk-4.0", ⟨"Gtk-4.0", [], []⟩, ResolveType.byHand⟩] true).modules,
        keyOf m = "gtk") ∧
      jsToLower (GirModulesGrouped.mk "Gtk"
          [⟨"Gtk-3.0", ⟨"Gtk-3.0", [], []⟩, ResolveType.byHand⟩,
            ⟨"Gtk-4.0", ⟨"Gtk-4.0", [], []⟩, ResolveType.byHand⟩] true).nspace = "gtk" ∧
      ((GirModulesGrouped.mk "Gtk"
          [⟨"Gtk-3.0", ⟨"Gtk-3.0", [], []⟩, ResolveType.byHand⟩,
            ⟨"Gtk-4.0", ⟨"Gtk-4.0", [], []⟩, ResolveType.byHand⟩] true).hasConflict = true ↔
        2 ≤ (GirModulesGrouped.mk "Gtk"
          [⟨"Gtk-3.0", ⟨"Gtk-3.0", [], []⟩, ResolveType.byHand⟩,
            ⟨"Gtk-4.0", ⟨"Gtk-4.0", [], []⟩, ResolveType.byHand⟩] true).modules.length) :=
  groupGirFiles_partitions_by_lowercased_namespace
    [⟨"Gtk-3.0", ⟨"Gtk-3.0", [], []⟩, ResolveType.byHand⟩,
      ⟨"Gtk-4.0", ⟨"Gtk-4.0", [], []⟩, ResolveType.byHand⟩]
    "gtk"
    (GirModulesGrouped.mk "Gtk"
      [⟨"Gtk-3.0", ⟨"Gtk-3.0", [], []⟩, ResolveType.byHand⟩,
        ⟨"Gtk-4.0", ⟨"Gtk-4.0", [], []⟩, ResolveType.byHand⟩] true)
    (by decide)

/-! ## Conflict Resolver: version answers -/

/-- `ModuleLoader.findGirModuleByFullNames`: the modules whose `packageName`
is among `packageNames`. -/
def findGirModuleByFullNames (girModules : List GirModuleResolvedBy)
    (packageNames : List String) : List GirModuleResolvedBy :=
  girModules.filter (fun girModule => girModule.packageName ∈ packageNames)

/-- `ModuleLoader.existsGirModules`. -/
def existsGirModules (girModules : List GirModuleResolvedBy) (packageNames : List String) :
    Bool :=
  decide (0 < (findGirModuleByFullNames girModules packageNames).length)

/-- `ModuleLoader.sortVersionsByAnswer`.  The `keep` set is embedded as the
list of kept modules (the source adds the filtered modules to a fresh
`Set`); the thrown `Error('Module not found!')` is the `Except.error`
branch.  In the non-conflict branch the source adds `modules[0]` to `keep`,
embedded as `take 1` (callers never reach this branch with an empty
group). -/
def sortVersionsByAnswer (girModulesGrouped : GirModulesGrouped) (selected : List String) :
    Except String (List GirModuleResolvedBy × List String) :=
  if girModulesGrouped.hasConflict then
    let keepModules := findGirModuleByFullNames girModulesGrouped.modules selected
    let girModulePackageNames := girModulesGrouped.modules.map
      (fun resolveGirModule => resolveGirModule.packageName)
    if keepModules.length ≤ 0 then
      Except.error "Module not found!"
    else
      Except.ok (keepModules,
        girModulePackageNames.filter (fun packageName => ¬ packageName ∈ selected))
  else
    Except.ok (girModulesGrouped.modules.take 1, [])

/-- `ModuleLoader.askForVersionsPrompt`, given the string the prompter
returned (`inquirer` only ever returns one of the presented choices). -/
def askForVersionsPromptAnswer (girModulesGrouped : GirModulesGrouped)
    (selectedAnswer : String) : AnswerVersion :=
  let choices := "All" :: girModulesGrouped.modules.map (fun module => module.packageName)
  if selectedAnswer = "All" then
    { selected := choices.filter (fun choice => ¬ choice = "All"), unselected := [] }
  else
    { selected := [selectedAnswer],
      unselected := choices.filter (fun choice => ¬ choice = selectedAnswer) }

/-- C4: In a conflicted group, answering `"All"` yields `selected` = every
member package name (excluding the literal `"All"`) and `unselected = []`;
consequently `sortVersionsByAnswer` keeps every member of the group and
ignores no name from it. -/
theorem answering_all_keeps_every_member :
    ∀ (group : GirModulesGrouped),
      group.hasConflict = true →
      group.modules ≠ [] →
      "All" ∉ group.modules.map (fun m => m.packageName) →
      (askForVersionsPromptAnswer group "All").selected =
        group.modules.map (fun m => m.packageName) ∧
      (askForVersionsPromptAnswer group "All").unselected = [] ∧
      sortVersionsByAnswer group (askForVersionsPromptAnswer group "All").selected =
        Except.ok (group.modules, []) := by
  intro group hconf hne hall
  have hf : List.filter (fun choice => !decide (choice = "All"))
      (group.modules.map (fun m => m.packageName)) =
      group.modules.map (fun m => m.packageName) := by
    rw [List.filter_eq_self]
    intro a ha
    have hne' : ¬ a = "All" := fun he => hall (he ▸ ha)
    simp [hne']
  have hsel : (askForVersionsPromptAnswer group "All").selected =
      group.modules.map (fun m => m.packageName) := by
    simp only [askForVersionsPromptAnswer, List.filter_cons]
    simp [hf]
  refine ⟨hsel, by simp [askForVersionsPromptAnswer], ?_⟩
  rw [hsel]
  have hkeep : findGirModuleByFullNames group.modules
      (group.modules.map (fun m => m.packageName)) = group.modules := by
    rw [findGirModuleByFullNames, List.filter_eq_self]
    intro m hm
    simp only [decide_eq_true_eq]
    exact List.mem_map_of_mem (fun x => x.packageName) hm
  have hlen : ¬ group.modules.length ≤ 0 := by
    cases hmods : group.modules with
    | nil => exact absurd hmods hne
    | cons a l => simp
  have hig : (group.modules.map (fun m => m.packageName)).filter
      (fun packageName => decide (packageName ∉ group.modules.map (fun m => m.packageName))) =
      [] := by
    rw [List.filter_eq_nil_iff]
    intro a ha
    simp [ha]
  simp [sortVersionsByAnswer, hconf, hkeep, hig, hlen]

/-- Witness for C4: a three-member conflict group; all members kept, nothing
ignored. -/
theorem answering_all_keeps_every_member_witness :
    (askForVersionsPromptAnswer
        (GirModulesGrouped.mk "Gtk"
          [⟨"Gtk-3.0", ⟨"Gtk-3.0", [], []⟩, ResolveType.byHand⟩,
            ⟨"Gtk-4.0", ⟨"Gtk-4.0", [], []⟩, ResolveType.byHand⟩,
            ⟨"Gtk-2.0", ⟨"Gtk-2.0", [], []⟩, ResolveType.byHand⟩] true) "All").selected =
      ["Gtk-3.0", "Gtk-4.0", "Gtk-2.0"] ∧
    (askForVersionsPromptAnswer
        (GirModulesGrouped.mk "Gtk"
          [⟨"Gtk-3.0", ⟨"Gtk-3.0", [], []⟩, ResolveType.byHand⟩,
            ⟨"Gtk-4.0", ⟨"Gtk-4.0", [], []⟩, ResolveType.byHand⟩,
            ⟨"Gtk-2.0", ⟨"Gtk-2.0", [], []⟩, ResolveType.byHand⟩] true) "All").unselected = [] ∧
    sortVersionsByAnswer
        (GirModulesGrouped.mk "Gtk"
          [⟨"Gtk-3.0", ⟨"Gtk-3.0", [], []⟩, ResolveType.byHand⟩,
            ⟨"Gtk-4.0", ⟨"Gtk-4.0", [], []⟩, ResolveType.byHand⟩,
            ⟨"Gtk-2.0", ⟨"Gtk-2.0", [], []⟩, ResolveType.byHand⟩] true)
        (askForVersionsPromptAnswer
          (GirModulesGrouped.mk "Gtk"
            [⟨"Gtk-3.0", ⟨"Gtk-3.0", [], []⟩, ResolveType.byHand⟩,
              ⟨"Gtk-4.0", ⟨"Gtk-4.0", [], []⟩, ResolveType.byHand⟩,
              ⟨"Gtk-2.0", ⟨"Gtk-2.0", [], []⟩, ResolveType.byHand⟩] true) "All").selected =
      Except.ok
        ([⟨"Gtk-3.0", ⟨"Gtk-3.0", [], []⟩, ResolveType.byHand⟩,
          ⟨"Gtk-4.0", ⟨"Gtk-4.0", [], []⟩, ResolveType.byHand⟩,
          ⟨"Gtk-2.0", ⟨"Gtk-2.0", [], []⟩, ResolveType.byHand⟩], []) := by
  have h := answering_all_keeps_every_member
    (GirModulesGrouped.mk "Gtk"
      [⟨"Gtk-3.0", ⟨"Gtk-3.0", [], []⟩, ResolveType.byHand⟩,
        ⟨"Gtk-4.0", ⟨"Gtk-4.0", [], []⟩, ResolveType.byHand⟩,
        ⟨"Gtk-2.0", ⟨"Gtk-2.0", [], []⟩, ResolveType.byHand⟩] true)
    (by decide) (by decide) (by decide)
  exact ⟨by rw [h.1]; decide, h.2.1, h.2.2⟩

/-- C5: For a conflicted group, `sortVersionsByAnswer` throws the fatal
`"Module not found!"` error precisely when the selected package names match
none of the group's members; otherwise (a member matches, or the group is
not conflicted) it returns without error. -/
theorem sortVersionsByAnswer_module_not_found :
    ∀ (group : GirModulesGrouped) (selected : List String),
      (group.hasConflict = true →
        (sortVersionsByAnswer group selected = Except.error "Module not found!" ↔
          ∀ m ∈ group.modules, m.packageName ∉ selected)) ∧
      (group.hasConflict = false →
        ∃ r, sortVersionsByAnswer group selected = Except.ok r) := by
  intro group selected
  constructor
  · intro hconf
    have hiff : (findGirModuleByFullNames group.modules selected).length ≤ 0 ↔
        ∀ m ∈ group.modules, m.packageName ∉ selected := by
      rw [Nat.le_zero, List.length_eq_zero, findGirModuleByFullNames,
        List.filter_eq_nil_iff]
      constructor
      · intro h m hm
        have := h m hm
        simpa using this
      · intro h m hm
        simpa using h m hm
    by_cases hlen : (findGirModuleByFullNames group.modules selected).length ≤ 0
    · simp only [sortVersionsByAnswer, hconf, if_pos rfl, if_pos hlen]
      simpa using hiff.mp hlen
    · simp only [sortVersionsByAnswer, hconf, if_pos rfl, if_neg hlen]
      constructor
      · intro h
        exact absurd h (by simp)
      · intro h
        exact absurd (hiff.mpr h) hlen
  · intro hconf
    refine ⟨(group.modules.take 1, []), ?_⟩
    simp [sortVersionsByAnswer, hconf]

/-- Witness for C5: a conflicted two-member group with a selection matching no
member errors out; the same group with a matching selection, and a
non-conflicted group, return without error. -/
theorem sortVersionsByAnswer_module_not_found_witness :
    (sortVersionsByAnswer
        (GirModulesGrouped.mk "Gtk"
          [⟨"Gtk-3.0", ⟨"Gtk-3.0", [], []⟩, ResolveType.byHand⟩,
            ⟨"Gtk-4.0", ⟨"Gtk-4.0", [], []⟩, ResolveType.byHand⟩] true) ["Nope-1.0"] =
        Except.error "Module not found!") ∧
      (∃ r, sortVersionsByAnswer
        (GirModulesGrouped.mk "Gtk"
          [⟨"Gtk-3.0", ⟨"Gtk-3.0", [], []⟩, ResolveType.byHand⟩] false) ["Gtk-3.0"] =
        Except.ok r) :=
  ⟨((sortVersionsByAnswer_module_not_found
        (GirModulesGrouped.mk "Gtk"
          [⟨"Gtk-3.0", ⟨"Gtk-3.0", [], []⟩, ResolveType.byHand⟩,
            ⟨"Gtk-4.0", ⟨"Gtk-4.0", [], []⟩, ResolveType.byHand⟩] true) ["Nope-1.0"]).1
      (by decide)).mpr (by decide),
    (sortVersionsByAnswer_module_not_found
        (GirModulesGrouped.mk "Gtk"
          [⟨"Gtk-3.0", ⟨"Gtk-3.0", [], []⟩, ResolveType.byHand⟩] false) ["Gtk-3.0"]).2
      (by decide)⟩

/-! ## Conflict Resolver: the per-group retry loop

`askForEachConflictVersionsPrompt` runs, for each conflicted group, a `while
(goBack)` loop: ask for a version, compute the modules that depend on the
unchosen versions, ask whether to ignore them too, and repeat while the
answer is `Go back`.  The `keep` set and the `ignore` list are only touched
after the loop, so the loop itself is embedded as a function of the user's
scripted answers that returns the final `versionAnswer`, `ignoreDepsAnswer`
and `wouldIgnoreDeps`; the commit step then folds them into `keep` /
`ignore`.  `none` means the answer script ran out (the source would keep
prompting). -/

/-- The three answers of the ignore-dependencies prompt. -/
inductive IgnoreDepsAnswer where
  | yes
  | no
  | goBack
deriving DecidableEq

/-- One round of prompter answers for a conflicted group: the chosen entry of
the version question and the answer to the follow-up question. -/
structure PromptRound where
  versionChoice : String
  depsAnswer : IgnoreDepsAnswer
deriving DecidableEq

/-- `ModuleLoader.findModulesDependOnPackage`: every module of the grouped map
other than `packageName` itself that declares a direct dependency on
`packageName`, deduplicated (`includes` check) in discovery order. -/
def findModulesDependOnPackage (girModulesGroupedMap : List (String × GirModulesGrouped))
    (packageName : String) : List GirModuleResolvedBy :=
  girModulesGroupedMap.foldl
    (fun acc kg =>
      kg.2.modules.foldl
        (fun acc2 m =>
          if m.packageName = packageName then acc2
          else if packageName ∈ m.module.dependencies ∧ ¬ m ∈ acc2 then acc2 ++ [m]
          else acc2)
        acc)
    []

/-- `ModuleLoader.findModulesDependOnPackages`. -/
def findModulesDependOnPackages (girModulesGroupedMap : List (String × GirModulesGrouped))
    (packageNames : List String) : List GirModuleResolvedBy :=
  packageNames.foldl
    (fun girModules packageName =>
      girModules ++ findModulesDependOnPackage girModulesGroupedMap packageName)
    []

/-- The `while (goBack)` loop of `askForEachConflictVersionsPrompt`, driven by
the scripted prompter answers `rounds`.  Returns the loop's surviving local
state `(versionAnswer, ignoreDepsAnswer, wouldIgnoreDeps)` once an answer
other than `Go back` is given. -/
def resolveConflictLoop (girModulesGroupedMap : List (String × GirModulesGrouped))
    (girModulesGrouped : GirModulesGrouped) (ignore : List String) :
    List PromptRound → Option (AnswerVersion × IgnoreDepsAnswer × List GirModuleResolvedBy)
  | [] => none
  | r :: rest =>
    let versionAnswer := askForVersionsPromptAnswer girModulesGrouped r.versionChoice
    let wouldIgnoreDeps :=
      (findModulesDependOnPackages girModulesGroupedMap versionAnswer.unselected).filter
        (fun dep => ¬ dep.packageName ∈ ignore)
    if r.depsAnswer = IgnoreDepsAnswer.goBack then
      resolveConflictLoop girModulesGroupedMap girModulesGrouped ignore rest
    else
      some (versionAnswer, r.depsAnswer, wouldIgnoreDeps)

/-- `union` from `utils.ts` on the `keep` set: members of `b` not already in
`a` are appended. -/
def listUnion (a b : List GirModuleResolvedBy) : List GirModuleResolvedBy :=
  a ++ b.filter (fun m => ¬ m ∈ a)

/-- The whole per-conflicted-group step of `askForEachConflictVersionsPrompt`:
run the retry loop, then (only on a confirming answer) extend `ignore` with
the cascaded dependents on a `Yes`, and fold `sortVersionsByAnswer`'s
result into `keep` and `ignore`. -/
def processConflictGroup (girModulesGroupedMap : List (String × GirModulesGrouped))
    (girModulesGrouped : GirModulesGrouped) (keep : List GirModuleResolvedBy)
    (ignore : List String) (rounds : List PromptRound) :
    Except String (List GirModuleResolvedBy × List String) :=
  match resolveConflictLoop girModulesGroupedMap girModulesGrouped ignore rounds with
  | none => Except.error "Error in processing the prompt versionAnswer"
  | some (versionAnswer, ignoreDepsAnswer, wouldIgnoreDeps) =>
    let ignore1 :=
      if ignoreDepsAnswer = IgnoreDepsAnswer.yes then
        ignore ++ wouldIgnoreDeps.map (fun dep => dep.packageName)
      else ignore
    match sortVersionsByAnswer girModulesGrouped versionAnswer.selected with
    | Except.error e => Except.error e
    | Except.ok unionMe => Except.ok (listUnion keep unionMe.1, ignore1 ++ unionMe.2)

/-- C8: Within the per-group conflict retry loop, a `Go back` answer leaves the
accumulated `keep` and `ignore` state unchanged and restarts the prompt for
the same group (the outcome is that of the remaining answers, from the same
`keep`/`ignore`); and the loop only ever commits on a confirming answer
(the surviving `ignoreDepsAnswer` is never `Go back`). -/
theorem go_back_leaves_keep_ignore_unchanged :
    ∀ (girModulesGroupedMap : List (String × GirModulesGrouped))
      (group : GirModulesGrouped) (keep : List GirModuleResolvedBy)
      (ignore : List String) (r : PromptRound) (rest : List PromptRound),
      r.depsAnswer = IgnoreDepsAnswer.goBack →
      (processConflictGroup girModulesGroupedMap group keep ignore (r :: rest) =
        processConflictGroup girModulesGroupedMap group keep ignore rest ∧
      ∀ (rounds : List PromptRound) (va : AnswerVersion) (da : IgnoreDepsAnswer)
        (w : List GirModuleResolvedBy),
        resolveConflictLoop girModulesGroupedMap group ignore rounds = some (va, da, w) →
        da ≠ IgnoreDepsAnswer.goBack) := by
  intro girModulesGroupedMap group keep ignore r rest hgb
  constructor
  · have hloop : resolveConflictLoop girModulesGroupedMap group ignore (r :: rest) =
        resolveConflictLoop girModulesGroupedMap group ignore rest := by
      rw [resolveConflictLoop, if_pos hgb]
    rw [processConflictGroup, hloop, processConflictGroup]
  · intro rounds
    induction rounds with
    | nil => intro va da w h; exact absurd h (by simp [resolveConflictLoop])
    | cons r0 rest0 ih =>
      intro va da w h
      by_cases hgb0 : r0.depsAnswer = IgnoreDepsAnswer.goBack
      · rw [resolveConflictLoop, if_pos hgb0] at h
        exact ih va da w h
      · rw [resolveConflictLoop, if_neg hgb0] at h
        have : r0.depsAnswer = da := by
          have := h
          simp only [Option.some.injEq, Prod.mk.injEq] at this
          exact this.2.1
        exact this ▸ hgb0

/-- Witness for C8: a concrete `Go back` round in front of a confirming round
produces the same committed `keep`/`ignore` as the confirming round alone,
and the loop's surviving answer is never `Go back`. -/
theorem go_back_leaves_keep_ignore_unchanged_witness :
    (processConflictGroup [] (GirModulesGrouped.mk "Gtk"
        [⟨"Gtk-3.0", ⟨"Gtk-3.0", [], []⟩, ResolveType.byHand⟩,
          ⟨"Gtk-4.0", ⟨"Gtk-4.0", [], []⟩, ResolveType.byHand⟩] true)
        [] ["Old-1.0"]
        (⟨"Gtk-3.0", IgnoreDepsAnswer.goBack⟩ :: [⟨"Gtk-4.0", IgnoreDepsAnswer.no⟩]) =
      processConflictGroup [] (GirModulesGrouped.mk "Gtk"
        [⟨"Gtk-3.0", ⟨"Gtk-3.0", [], []⟩, ResolveType.byHand⟩,
          ⟨"Gtk-4.0", ⟨"Gtk-4.0", [], []⟩, ResolveType.byHand⟩] true)
        [] ["Old-1.0"]
        [⟨"Gtk-4.0", IgnoreDepsAnswer.no⟩]) ∧
    (∀ (rounds : List PromptRound) (va : AnswerVersion) (da : IgnoreDepsAnswer)
        (w : List GirModuleResolvedBy),
      resolveConflictLoop [] (GirModulesGrouped.mk "Gtk"
          [⟨"Gtk-3.0", ⟨"Gtk-3.0", [], []⟩, ResolveType.byHand⟩,
            ⟨"Gtk-4.0", ⟨"Gtk-4.0", [], []⟩, ResolveType.byHand⟩] true)
          ["Old-1.0"] rounds = some (va, da, w) →
      da ≠ IgnoreDepsAnswer.goBack) :=
  go_back_leaves_keep_ignore_unchanged []
    (GirModulesGrouped.mk "Gtk"
      [⟨"Gtk-3.0", ⟨"Gtk-3.0", [], []⟩, ResolveType.byHand⟩,
        ⟨"Gtk-4.0", ⟨"Gtk-4.0", [], []⟩, ResolveType.byHand⟩] true)
    [] ["Old-1.0"] ⟨"Gtk-3.0", IgnoreDepsAnswer.goBack⟩ [⟨"Gtk-4.0", IgnoreDepsAnswer.no⟩]
    rfl

/-! ## Transitive module dependencies (`traverseDependencies`)

The source walks `modDependencyMap` depth-first, recording visited package
names in the shared `result` object (`result[dep.packageName] = 1`) and
skipping names already present; `Object.keys(result)` then lists them in
insertion order.  The recursion is embedded with an explicit fuel argument;
`traverseFuel` is a bound shown sufficient by the stabilization theorem. -/

/-- The `modDependencyMap` object: per depending package name, the list of its
direct `Dependency` entries. -/
abbrev DependencyMap := List (String × List Dependency)

/-- Reading `this.modDependencyMap[packageName]`; a missing key is `undefined`,
for which `isIterable` is false. -/
def lookupDeps (m : DependencyMap) (packageName : String) : Option (List Dependency) :=
  (m.find? (fun e => e.1 = packageName)).map (fun e => e.2)

/-- `ModuleLoader.traverseDependencies` with fuel: the body iterates the
dependency entries of `packageName`, skipping names already in `result`,
otherwise appending the name and recursing into it with the shared,
already-extended `result`. -/
def traverseDependencies (m : DependencyMap) : Nat → String → List String → List String
  | 0, _, result => result
  | Nat.succ fuel, packageName, result =>
    match lookupDeps m packageName with
    | none => result
    | some deps =>
      deps.foldl
        (fun res dep =>
          if dep.packageName ∈ res then res
          else traverseDependencies m fuel dep.packageName (res ++ [dep.packageName]))
        result

/-- Every package name that any entry of the map declares as a dependency. -/
def allDepNames (m : DependencyMap) : List String :=
  (m.map (fun e => e.2.map (fun d => d.packageName))).flatten

/-- A fuel bound sufficient for `traverseDependencies` to reach its fixpoint. -/
def traverseFuel (m : DependencyMap) : Nat :=
  (allDepNames m).length + 1

/-- The per-module transitive closure as `setTraverseDependenciesForModules`
computes it: a walk seeded with a fresh empty `result`. -/
def transitiveDependencyClosure (m : DependencyMap) (packageName : String) : List String :=
  traverseDependencies m (traverseFuel m) packageName []

/-- `ModuleLoader.setTraverseDependenciesForModules`: overwrite each module's
`transitiveDependencies` with its freshly traversed closure. -/
def setTraverseDependenciesForModules (m : DependencyMap)
    (girModules : List GirModuleResolvedBy) : List GirModuleResolvedBy :=
  girModules.map (fun girModule =>
    { girModule with
      module := { girModule.module with
        transitiveDependencies := transitiveDependencyClosure m girModule.packageName } })

theorem lookupDeps_subset (m : DependencyMap) (p : String) (deps : List Dependency)
    (h : lookupDeps m p = some deps) : ∀ d ∈ deps, d.packageName ∈ allDepNames m := by
  intro d hd
  unfold lookupDeps at h
  cases hf : m.find? (fun e => e.1 = p) with
  | none => rw [hf] at h; simp at h
  | some e =>
    rw [hf] at h
    simp at h
    have hmem : e ∈ m := List.mem_of_find?_eq_some hf
    unfold allDepNames
    rw [List.mem_flatten]
    refine ⟨e.2.map (fun d => d.packageName), ?_, ?_⟩
    · exact List.mem_map_of_mem (fun e => e.2.map (fun d => d.packageName)) hmem
    · rw [h]
      exact List.mem_map_of_mem (fun d => d.packageName) hd

theorem trav_extend_fold (m : DependencyMap) (f : Nat)
    (ihf : ∀ (p : String) (result : List String),
      ∃ ext, traverseDependencies m f p result = result ++ ext ∧
        ∀ x ∈ ext, x ∈ allDepNames m) :
    ∀ (deps : List Dependency), (∀ d ∈ deps, d.packageName ∈ allDepNames m) →
      ∀ (result : List String),
        ∃ ext,
          deps.foldl
            (fun res dep =>
              if dep.packageName ∈ res then res
              else traverseDependencies m f dep.packageName (res ++ [dep.packageName]))
            result = result ++ ext ∧
          ∀ x ∈ ext, x ∈ allDepNames m := by
  intro deps
  induction deps with
  | nil => intro _ result; exact ⟨[], by simp, by simp⟩
  | cons d rest ih =>
    intro hdeps result
    have hd' : d.packageName ∈ allDepNames m := hdeps d (by simp)
    have hrest : ∀ x ∈ rest, x.packageName ∈ allDepNames m :=
      fun x hx => hdeps x (by simp [hx])
    rw [List.foldl_cons]
    by_cases hd : d.packageName ∈ result
    · rw [if_pos hd]
      exact ih hrest result
    · rw [if_neg hd]
      obtain ⟨e1, he1, he1m⟩ := ihf d.packageName (result ++ [d.packageName])
      rw [he1]
      obtain ⟨e2, he2, he2m⟩ := ih hrest (result ++ [d.packageName] ++ e1)
      rw [he2]
      refine ⟨[d.packageName] ++ e1 ++ e2, by simp, ?_⟩
      intro x hx
      rcases List.mem_append.mp hx with hx | hx
      · rcases List.mem_append.mp hx with hx | hx
        · simp only [List.mem_singleton] at hx
          exact hx ▸ hd'
        · exact he1m x hx
      · exact he2m x hx

theorem trav_extend (m : DependencyMap) :
    ∀ (fuel : Nat) (p : String) (result : List String),
      ∃ ext, traverseDependencies m fuel p result = result ++ ext ∧
        ∀ x ∈ ext, x ∈ allDepNames m := by
  intro fuel
  induction fuel with
  | zero => intro p result; exact ⟨[], by simp [traverseDependencies], by simp⟩
  | succ f ih =>
    intro p result
    rw [traverseDependencies]
    cases hl : lookupDeps m p with
    | none => exact ⟨[], by simp, by simp⟩
    | some deps =>
      exact trav_extend_fold m f ih deps (lookupDeps_subset m p deps hl) result

/-- The measure of a visited set: how many declared dependency names are not
yet recorded. -/
def remaining (m : DependencyMap) (result : List String) : Nat :=
  ((allDepNames m).toFinset \ result.toFinset).card

theorem remaining_le_of_subset (m : DependencyMap) {r r' : List String}
    (h : ∀ x ∈ r, x ∈ r') : remaining m r' ≤ remaining m r := by
  apply Finset.card_le_card
  intro x hx
  simp only [Finset.mem_sdiff, List.mem_toFinset] at hx ⊢
  exact ⟨hx.1, fun hc => hx.2 (h x hc)⟩

theorem remaining_append_lt (m : DependencyMap) {r : List String} {d : String}
    (hd : d ∈ allDepNames m) (hnr : d ∉ r) :
    remaining m (r ++ [d]) < remaining m r := by
  apply Finset.card_lt_card
  rw [Finset.ssubset_iff_of_subset]
  · refine ⟨d, ?_, ?_⟩
    · simp only [Finset.mem_sdiff, List.mem_toFinset]
      exact ⟨hd, hnr⟩
    · simp
  · intro x hx
    simp only [Finset.mem_sdiff, List.mem_toFinset, List.mem_append] at hx ⊢
    exact ⟨hx.1, fun hc => hx.2 (Or.inl hc)⟩

theorem trav_skip_fold (m : DependencyMap) (f : Nat) :
    ∀ (deps : List Dependency) (res : List String),
      (∀ d ∈ deps, d.packageName ∈ res) →
      deps.foldl
        (fun res dep =>
          if dep.packageName ∈ res then res
          else traverseDependencies m f dep.packageName (res ++ [dep.packageName]))
        res = res := by
  intro deps
  induction deps with
  | nil => intro res _; rfl
  | cons d rest ih =>
    intro res h
    rw [List.foldl_cons, if_pos (h d (by simp))]
    exact ih res (fun x hx => h x (by simp [hx]))

theorem trav_stab_fold (m : DependencyMap) (a b k : Nat)
    (heq : ∀ (p : String) (res : List String), remaining m res ≤ k →
      traverseDependencies m a p res = traverseDependencies m b p res) :
    ∀ (deps : List Dependency), (∀ d ∈ deps, d.packageName ∈ allDepNames m) →
      ∀ (res : List String), remaining m res ≤ k + 1 →
        deps.foldl
          (fun res dep =>
            if dep.packageName ∈ res then res
            else traverseDependencies m a dep.packageName (res ++ [dep.packageName]))
          res =
        deps.foldl
          (fun res dep =>
            if dep.packageName ∈ res then res
            else traverseDependencies m b dep.packageName (res ++ [dep.packageName]))
          res := by
  intro deps
  induction deps with
  | nil => intro _ res _; rfl
  | cons d rest ih =>
    intro hdeps res hrem
    have hd' : d.packageName ∈ allDepNames m := hdeps d (by simp)
    have hrest : ∀ x ∈ rest, x.packageName ∈ allDepNames m :=
      fun x hx => hdeps x (by simp [hx])
    rw [List.foldl_cons, List.foldl_cons]
    by_cases hd : d.packageName ∈ res
    · rw [if_pos hd, if_pos hd]
      exact ih hrest res hrem
    · rw [if_neg hd, if_neg hd]
      have hlt : remaining m (res ++ [d.packageName]) < remaining m res :=
        remaining_append_lt m hd' hd
      have hle : remaining m (res ++ [d.packageName]) ≤ k := by omega
      rw [heq d.packageName (res ++ [d.packageName]) hle]
      obtain ⟨e1, he1, _⟩ := trav_extend m b d.packageName (res ++ [d.packageName])
      have hrem' : remaining m (traverseDependencies m b d.packageName
          (res ++ [d.packageName])) ≤ k + 1 := by
        have h1 : remaining m (traverseDependencies m b d.packageName
            (res ++ [d.packageName])) ≤ remaining m (res ++ [d.packageName]) := by
          apply remaining_le_of_subset
          intro x hx
          rw [he1]
          exact List.mem_append.mpr (Or.inl hx)
        omega
      exact ih hrest _ hrem'

theorem trav_stab (m : DependencyMap) :
    ∀ (k f₁ f₂ : Nat) (p : String) (result : List String),
      remaining m result ≤ k → k < f₁ → k < f₂ →
      traverseDependencies m f₁ p result = traverseDependencies m f₂ p result := by
  intro k
  induction k with
  | zero =>
    intro f₁ f₂ p result hrem h1 h2
    obtain ⟨a, rfl⟩ : ∃ a, f₁ = a + 1 := ⟨f₁ - 1, by omega⟩
    obtain ⟨b, rfl⟩ : ∃ b, f₂ = b + 1 := ⟨f₂ - 1, by omega⟩
    rw [traverseDependencies, traverseDependencies]
    cases hl : lookupDeps m p with
    | none => rfl
    | some deps =>
      dsimp only
      have hin : ∀ d ∈ deps, d.packageName ∈ result := by
        intro d hd
        have hA : d.packageName ∈ allDepNames m := lookupDeps_subset m p deps hl d hd
        by_contra hres
        have : d.packageName ∈ (allDepNames m).toFinset \ result.toFinset := by
          simp only [Finset.mem_sdiff, List.mem_toFinset]
          exact ⟨hA, hres⟩
        have : 0 < remaining m result := Finset.card_pos.mpr ⟨d.packageName, this⟩
        omega
      rw [trav_skip_fold m a deps result hin, trav_skip_fold m b deps result hin]
  | succ k ih =>
    intro f₁ f₂ p result hrem h1 h2
    obtain ⟨a, rfl⟩ : ∃ a, f₁ = a + 1 := ⟨f₁ - 1, by omega⟩
    obtain ⟨b, rfl⟩ : ∃ b, f₂ = b + 1 := ⟨f₂ - 1, by omega⟩
    rw [traverseDependencies, traverseDependencies]
    cases hl : lookupDeps m p with
    | none => rfl
    | some deps =>
      dsimp only
      have heq : ∀ (q : String) (res : List String), remaining m res ≤ k →
          traverseDependencies m a q res = traverseDependencies m b q res := by
        intro q res hres
        exact ih a b q res hres (by omega) (by omega)
      exact trav_stab_fold m a b k heq deps (lookupDeps_subset m p deps hl) result hrem

theorem trav_nodup_fold (m : DependencyMap) (f : Nat)
    (ihf : ∀ (p : String) (result : List String), result.Nodup →
      (traverseDependencies m f p result).Nodup) :
    ∀ (deps : List Dependency) (res : List String), res.Nodup →
      (deps.foldl
        (fun res dep =>
          if dep.packageName ∈ res then res
          else traverseDependencies m f dep.packageName (res ++ [dep.packageName]))
        res).Nodup := by
  intro deps
  induction deps with
  | nil => intro res h; exact h
  | cons d rest ih =>
    intro res h
    rw [List.foldl_cons]
    by_cases hd : d.packageName ∈ res
    · rw [if_pos hd]
      exact ih res h
    · rw [if_neg hd]
      apply ih
      apply ihf
      simp [List.nodup_append, h, hd]

theorem trav_nodup (m : DependencyMap) :
    ∀ (fuel : Nat) (p : String) (result : List String), result.Nodup →
      (traverseDependencies m fuel p result).Nodup := by
  intro fuel
  induction fuel with
  | zero => intro p result h; exact h
  | succ f ih =>
    intro p result h
    rw [traverseDependencies]
    cases hl : lookupDeps m p with
    | none => exact h
    | some deps => exact trav_nodup_fold m f ih deps result h

/-- C3: For every finite dependency map — cyclic graphs included — the
depth-first walk of `traverseDependencies` terminates: the walk
short-circuits on names already visited, so any two fuel values at or above
the computable bound `traverseFuel` yield the same result (the recursion has
reached its fixpoint), and each transitive dependency name appears at most
once in the resulting set. -/
theorem traverseDependencies_terminates_and_unique :
    ∀ (m : DependencyMap) (packageName : String) (f₁ f₂ : Nat),
      traverseFuel m ≤ f₁ → traverseFuel m ≤ f₂ →
      traverseDependencies m f₁ packageName [] = traverseDependencies m f₂ packageName [] ∧
      (traverseDependencies m f₁ packageName []).Nodup := by
  intro m p f₁ f₂ h1 h2
  have hrem : remaining m [] ≤ (allDepNames m).length := by
    unfold remaining
    simp only [List.toFinset_nil, Finset.sdiff_empty]
    exact List.toFinset_card_le _
  have hf1 : (allDepNames m).length < f₁ := by
    unfold traverseFuel at h1; omega
  have hf2 : (allDepNames m).length < f₂ := by
    unfold traverseFuel at h2; omega
  exact ⟨trav_stab m (allDepNames m).length f₁ f₂ p [] hrem hf1 hf2,
    trav_nodup m f₁ p [] List.nodup_nil⟩

/-- The two-module cycle of the spec's test property: `A-1.0` depends on
`B-1.0` and `B-1.0` depends on `A-1.0`. -/
def cycleDependencyMap : DependencyMap :=
  [("A-1.0", [⟨"B", "1.0", "B-1.0"⟩]), ("B-1.0", [⟨"A", "1.0", "A-1.0"⟩])]

/-- Witness for C3 at the concrete cyclic map with two distinct sufficient
fuels. -/
theorem traverseDependencies_terminates_and_unique_witness :
    traverseDependencies cycleDependencyMap 3 "A-1.0" [] =
      traverseDependencies cycleDependencyMap 10 "A-1.0" [] ∧
    (traverseDependencies cycleDependencyMap 3 "A-1.0" []).Nodup :=
  traverseDependencies_terminates_and_unique cycleDependencyMap "A-1.0" 3 10
    (by decide) (by decide)

/-- C1 counterexample: on the cycle `A-1.0 ↔ B-1.0`, the traversal of `A-1.0`
does NOT yield exactly `{B-1.0}`: the seed's own name `A-1.0` is in its
closure (the walk reaches `A-1.0` again through `B-1.0` and records it,
since only `B-1.0` is in the visited set at that point), and symmetrically
for `B-1.0`.  `setTraverseDependenciesForModules` therefore stores
`["B-1.0", "A-1.0"]` — not `["B-1.0"]` — as `A-1.0`'s transitive
dependencies. -/
theorem cycle_closure_contains_seed_counterexample :
    ((setTraverseDependenciesForModules cycleDependencyMap
        [⟨"A-1.0", ⟨"A-1.0", ["B-1.0"], []⟩, ResolveType.byHand⟩]).map
      (fun g => g.module.transitiveDependencies) = [["B-1.0", "A-1.0"]]) ∧
    "A-1.0" ∈ transitiveDependencyClosure cycleDependencyMap "A-1.0" ∧
    "B-1.0" ∈ transitiveDependencyClosure cycleDependencyMap "B-1.0" := by
  refine ⟨by decide, by decide, by decide⟩

/-- C1 amended: for the dependency cycle `A ↔ B`, computing either module's
transitive closure via `traverseDependencies` terminates (every fuel at or
above the bound yields the same value), and yields exactly the set
`{B, A}` for `A` and `{A, B}` for `B`: the seed's own name appears —
exactly once — because the cycle routes back to it. -/
theorem cycle_closure_terminates_exact :
    ∀ (fuel : Nat), traverseFuel cycleDependencyMap ≤ fuel →
      traverseDependencies cycleDependencyMap fuel "A-1.0" [] = ["B-1.0", "A-1.0"] ∧
      traverseDependencies cycleDependencyMap fuel "B-1.0" [] = ["A-1.0", "B-1.0"] := by
  intro fuel h
  have hswap : ∀ p, traverseDependencies cycleDependencyMap fuel p [] =
      traverseDependencies cycleDependencyMap (traverseFuel cycleDependencyMap) p [] := by
    intro p
    apply trav_stab cycleDependencyMap (allDepNames cycleDependencyMap).length
    · unfold remaining
      simp only [List.toFinset_nil, Finset.sdiff_empty]
      exact List.toFinset_card_le _
    · unfold traverseFuel at h; omega
    · unfold traverseFuel; omega
  rw [hswap, hswap]
  exact ⟨by decide, by decide⟩

/-- Witness for the amended C1 at a concrete sufficient fuel. -/
theorem cycle_closure_terminates_exact_witness :
    traverseDependencies cycleDependencyMap 5 "A-1.0" [] = ["B-1.0", "A-1.0"] ∧
    traverseDependencies cycleDependencyMap 5 "B-1.0" [] = ["A-1.0", "B-1.0"] :=
  cycle_closure_terminates_exact 5 (by decide)

/-! ## Module Registry (`loadGirModules`)

The fixpoint loader.  Reading and parsing a `.gir` document
(`loadAndCreateGirModule`'s `findFileInDirs` + `xml2js` + `new GirModule`) is
abstracted as a function `docs : String → Option GirModule`: `none` means no
document was found for that package name.  The shared mutable accumulators
(`girModules`, `failedGirModules`, `modDependencyMap`) and the warning log
become a `LoadState` threaded explicitly.  The recursion over transitive
dependencies takes fuel; the claims proved about the loader hold for every
fuel value.  The source's `girToLoad.shift() || 'unknown'` fallback is
`normName`, and its guard `if (!packageName) throw` can never fire because
`normName` never returns the empty string. -/

/-- `girToLoad.shift() || 'unknown'`. -/
def normName (n : String) : String :=
  if n = "" then "unknown" else n

/-- JavaScript object write `obj[key] = v` (overwrite in place or append). -/
def objectAssign {α : Type} (obj : List (String × α)) (key : String) (v : α) :
    List (String × α) :=
  match obj with
  | [] => [(key, v)]
  | e :: rest => if e.1 = key then (key, v) :: rest else e :: objectAssign rest key v

/-- `ModuleLoader.extendDependencyMapByGirModule`:
`modDependencyMap[girModule.packageName || '-'] = map(dependencies, splitModuleName ...)`. -/
def extendDependencyMapByGirModule (m : DependencyMap) (girModule : GirModule) :
    DependencyMap :=
  objectAssign m (if girModule.packageName = "" then "-" else girModule.packageName)
    (girModule.dependencies.map (fun packageName =>
      { nspace := (splitModuleName packageName).1,
        version := (splitModuleName packageName).2,
        packageName := packageName }))

/-- The mutable state of one `loadGirModules` run: the dependency map, the
loaded modules, the `failed` set (insertion order) and the two warning
logs: the package names of the `WARN_NO_GIR_FILE_FOUND_FOR_PACKAGE`
emissions, and the `(dependency, dependent)` pairs of the
ignored-dependency warnings. -/
structure LoadState where
  depMap : DependencyMap
  girModules : List GirModuleResolvedBy
  failed : List String
  warnedMissing : List String
  warnedIgnored : List (String × String)
deriving DecidableEq

/-- The `while (girToLoad.length > 0)` loop of `loadGirModules`: drain the
queue, skipping names already loaded; a missing document warns (at most
once per name) and records the name in `failed`; a parsed document extends
the dependency map and — when its self-declared package name is truthy —
appends a `GirModuleResolvedBy`, raising the `newModuleFound` flag. -/
def loadPass (docs : String → Option GirModule) (resolvedBy : ResolveType) :
    List String → LoadState → Bool → LoadState × Bool
  | [], st, newModuleFound => (st, newModuleFound)
  | n :: rest, st, newModuleFound =>
    let packageName := normName n
    if existsGirModules st.girModules [packageName] then
      loadPass docs resolvedBy rest st newModuleFound
    else
      match docs packageName with
      | none =>
        if packageName ∈ st.failed then
          loadPass docs resolvedBy rest st newModuleFound
        else
          loadPass docs resolvedBy rest
            { st with
              failed := st.failed ++ [packageName],
              warnedMissing := st.warnedMissing ++ [packageName] }
            newModuleFound
      | some girModule =>
        let st1 := { st with depMap := extendDependencyMapByGirModule st.depMap girModule }
        if girModule.packageName = "" then
          loadPass docs resolvedBy rest st1 newModuleFound
        else
          loadPass docs resolvedBy rest
            { st1 with
              girModules := st1.girModules ++
                [⟨girModule.packageName, girModule, resolvedBy⟩] }
            true

mutual

/-- `ModuleLoader.loadGirModules` (fuel-indexed): run the drain pass; when no
new module was found, stop; otherwise recompute every module's transitive
dependencies and load them (the `for (const girModule of girModules)` loop,
which iterates the array by index and therefore also visits modules
appended during the recursion). -/
def loadGirModules (docs : String → Option GirModule) (fuel : Nat)
    (girModulesToRead ignoreDependencies : List String) (resolvedBy : ResolveType)
    (st : LoadState) : LoadState :=
  let r := loadPass docs resolvedBy girModulesToRead st false
  if r.2 = false then r.1
  else
    match fuel with
    | 0 => r.1
    | Nat.succ f =>
      let st1 := { r.1 with
        girModules := setTraverseDependenciesForModules r.1.depMap r.1.girModules }
      loadDepsLoop docs f ignoreDependencies 0 st1

/-- The dependency loop of `loadGirModules`: for each loaded module (by
position, so modules appended by the recursive calls are visited too), warn
about transitive dependencies that are in the ignore list but will be
loaded anyway, then recurse into them. -/
def loadDepsLoop (docs : String → Option GirModule) (fuel : Nat)
    (ignoreDependencies : List String) (i : Nat) (st : LoadState) : LoadState :=
  match fuel with
  | 0 => st
  | Nat.succ f =>
    match st.girModules[i]? with
    | none => st
    | some girModule =>
      let tds := girModule.module.transitiveDependencies
      let st1 :=
        if 0 < tds.length then
          loadGirModules docs f tds ignoreDependencies ResolveType.dependence
            { st with
              warnedIgnored := st.warnedIgnored ++
                (tds.filter (fun d => d ∈ ignoreDependencies)).map
                  (fun d => (d, girModule.packageName)) }
        else st
      loadDepsLoop docs f ignoreDependencies (i + 1) st1

end

/-- The package names of the loaded modules, in load order. -/
def girNames (st : LoadState) : List String :=
  st.girModules.map (fun g => g.packageName)

/-- The warn-once invariant: the missing-file warning log has no duplicate
name, and every warned name has been recorded in `failed`. -/
def WarnInv (st : LoadState) : Prop :=
  st.warnedMissing.Nodup ∧ ∀ x ∈ st.warnedMissing, x ∈ st.failed

/-- One loader step only ever extends the `failed` set and the loaded module
list, and preserves the warn-once invariant. -/
def LoadExtends (st st' : LoadState) : Prop :=
  (∃ e, st'.failed = st.failed ++ e) ∧
  (∃ e, girNames st' = girNames st ++ e) ∧
  (WarnInv st → WarnInv st')

theorem loadExtends_rfl (st : LoadState) : LoadExtends st st :=
  ⟨⟨[], by simp⟩, ⟨[], by simp⟩, fun w => w⟩

theorem loadExtends_trans {a b c : LoadState} (h1 : LoadExtends a b) (h2 : LoadExtends b c) :
    LoadExtends a c := by
  obtain ⟨⟨e1, he1⟩, ⟨e2, he2⟩, hw1⟩ := h1
  obtain ⟨⟨f1, hf1⟩, ⟨f2, hf2⟩, hw2⟩ := h2
  exact ⟨⟨e1 ++ f1, by rw [hf1, he1, List.append_assoc]⟩,
    ⟨e2 ++ f2, by rw [hf2, he2, List.append_assoc]⟩, fun w => hw2 (hw1 w)⟩

theorem loadPass_extends (docs : String → Option GirModule) (rb : ResolveType) :
    ∀ (toRead : List String) (st : LoadState) (b : Bool),
      LoadExtends st (loadPass docs rb toRead st b).1 := by
  intro toRead
  induction toRead with
  | nil => intro st b; exact loadExtends_rfl st
  | cons n rest ih =>
    intro st b
    rw [loadPass]
    dsimp only
    by_cases hex : existsGirModules st.girModules [normName n] = true
    · rw [if_pos hex]
      exact ih st b
    · rw [if_neg hex]
      cases hdoc : docs (normName n) with
      | none =>
        dsimp only
        by_cases hfail : normName n ∈ st.failed
        · rw [if_pos hfail]
          exact ih st b
        · rw [if_neg hfail]
          refine loadExtends_trans ?_ (ih _ b)
          refine ⟨⟨[normName n], by simp⟩, ⟨[], by simp [girNames]⟩, ?_⟩
          rintro ⟨hnd, hsub⟩
          constructor
          · simp only [List.nodup_append, List.nodup_singleton, true_and]
            refine ⟨hnd, ?_⟩
            intro x hx hy
            simp only [List.mem_singleton] at hy
            exact hfail (hy ▸ hsub x hx)
          · intro x hx
            simp only [List.mem_append, List.mem_singleton] at hx ⊢
            rcases hx with hx | hx
            · exact Or.inl (hsub x hx)
            · exact Or.inr hx
      | some girModule =>
        dsimp only
        by_cases hpk : girModule.packageName = ""
        · rw [if_pos hpk]
          refine loadExtends_trans ?_ (ih _ b)
          exact ⟨⟨[], by simp⟩, ⟨[], by simp [girNames]⟩, fun w => w⟩
        · rw [if_neg hpk]
          refine loadExtends_trans ?_ (ih _ true)
          refine ⟨⟨[], by simp⟩, ⟨[girModule.packageName], ?_⟩, fun w => w⟩
          simp [girNames]

theorem setTraverse_names (m : DependencyMap) (gs : List GirModuleResolvedBy) :
    (setTraverseDependenciesForModules m gs).map (fun g => g.packageName) =
      gs.map (fun g => g.packageName) := by
  unfold setTraverseDependenciesForModules
  rw [List.map_map]
  rfl

theorem setTraverse_extends (m : DependencyMap) (st : LoadState) :
    LoadExtends st
      { st with girModules := setTraverseDependenciesForModules m st.girModules } :=
  ⟨⟨[], by simp⟩, ⟨[], by simp [girNames, setTraverse_names]⟩, fun w => w⟩

theorem load_extends : ∀ (fuel : Nat),
    (∀ (docs : String → Option GirModule) (toRead ignoreDeps : List String)
      (rb : ResolveType) (st : LoadState),
      LoadExtends st (loadGirModules docs fuel toRead ignoreDeps rb st)) ∧
    (∀ (docs : String → Option GirModule) (ignoreDeps : List String) (i : Nat)
      (st : LoadState),
      LoadExtends st (loadDepsLoop docs fuel ignoreDeps i st)) := by
  intro fuel
  induction fuel with
  | zero =>
    constructor
    · intro docs toRead ignoreDeps rb st
      rw [loadGirModules]
      by_cases h : (loadPass docs rb toRead st false).2 = false
      · rw [if_pos h]
        exact loadPass_extends docs rb toRead st false
      · rw [if_neg h]
        exact loadPass_extends docs rb toRead st false
    · intro docs ignoreDeps i st
      rw [loadDepsLoop]
      exact loadExtends_rfl st
  | succ f ih =>
    obtain ⟨ihLoad, ihLoop⟩ := ih
    constructor
    · intro docs toRead ignoreDeps rb st
      rw [loadGirModules]
      dsimp only
      by_cases h : (loadPass docs rb toRead st false).2 = false
      · rw [if_pos h]
        exact loadPass_extends docs rb toRead st false
      · rw [if_neg h]
        exact loadExtends_trans (loadPass_extends docs rb toRead st false)
          (loadExtends_trans (setTraverse_extends _ _) (ihLoop docs ignoreDeps 0 _))
    · intro docs ignoreDeps i st
      rw [loadDepsLoop]
      dsimp only
      cases hg : st.girModules[i]? with
      | none => exact loadExtends_rfl st
      | some girModule =>
        dsimp only
        by_cases ht : 0 < girModule.module.transitiveDependencies.length
        · rw [if_pos ht]
          refine loadExtends_trans ?_ (ihLoop docs ignoreDeps (i + 1) _)
          refine loadExtends_trans ?_
            (ihLoad docs girModule.module.transitiveDependencies ignoreDeps
              ResolveType.dependence _)
          exact ⟨⟨[], by simp⟩, ⟨[], by simp [girNames]⟩, fun w => w⟩
        · rw [if_neg ht]
          exact ihLoop docs ignoreDeps (i + 1) st

theorem existsGirModules_iff (gs : List GirModuleResolvedBy) (p : String) :
    existsGirModules gs [p] = true ↔ p ∈ gs.map (fun g => g.packageName) := by
  unfold existsGirModules findGirModuleByFullNames
  rw [decide_eq_true_iff]
  constructor
  · intro h
    obtain ⟨x, hx⟩ := List.exists_mem_of_length_pos h
    have hx' := List.mem_filter.mp hx
    have : x.packageName ∈ [p] := of_decide_eq_true hx'.2
    simp only [List.mem_singleton] at this
    exact this ▸ List.mem_map_of_mem (fun g => g.packageName) hx'.1
  · intro h
    obtain ⟨g, hg, hgp⟩ := List.mem_map.mp h
    apply List.length_pos_of_mem (a := g)
    rw [List.mem_filter]
    exact ⟨hg, by simp [hgp]⟩

theorem loadGirModules_extends_pass (docs : String → Option GirModule) (fuel : Nat)
    (toRead ignoreDeps : List String) (rb : ResolveType) (st : LoadState) :
    LoadExtends (loadPass docs rb toRead st false).1
      (loadGirModules docs fuel toRead ignoreDeps rb st) := by
  cases fuel with
  | zero =>
    rw [loadGirModules]
    by_cases h : (loadPass docs rb toRead st false).2 = false
    · rw [if_pos h]; exact loadExtends_rfl _
    · rw [if_neg h]; exact loadExtends_rfl _
  | succ f =>
    rw [loadGirModules]
    dsimp only
    by_cases h : (loadPass docs rb toRead st false).2 = false
    · rw [if_pos h]; exact loadExtends_rfl _
    · rw [if_neg h]
      exact loadExtends_trans (setTraverse_extends _ _) ((load_extends f).2 docs ignoreDeps 0 _)

theorem loadPass_missing (docs : String → Option GirModule) (rb : ResolveType) :
    ∀ (toRead : List String) (st : LoadState) (b : Bool) (n : String),
      n ∈ toRead → docs (normName n) = none →
      (normName n ∈ girNames (loadPass docs rb toRead st b).1 ∨
        normName n ∈ (loadPass docs rb toRead st b).1.failed) := by
  intro toRead
  induction toRead with
  | nil => intro st b n hn; exact absurd hn (by simp)
  | cons m rest ih =>
    intro st b n hn hdoc
    rw [loadPass]
    dsimp only
    rcases List.mem_cons.mp hn with hn | hn
    · subst hn
      by_cases hex : existsGirModules st.girModules [normName n] = true
      · rw [if_pos hex]
        obtain ⟨_, ⟨e, he⟩, _⟩ := loadPass_extends docs rb rest st b
        left
        rw [he]
        exact List.mem_append.mpr (Or.inl ((existsGirModules_iff st.girModules _).mp hex))
      · rw [if_neg hex]
        rw [hdoc]
        dsimp only
        by_cases hfail : normName n ∈ st.failed
        · rw [if_pos hfail]
          obtain ⟨⟨e, he⟩, _, _⟩ := loadPass_extends docs rb rest st b
          right
          rw [he]
          exact List.mem_append.mpr (Or.inl hfail)
        · rw [if_neg hfail]
          obtain ⟨⟨e, he⟩, _, _⟩ := loadPass_extends docs rb rest
            { st with
              failed := st.failed ++ [normName n],
              warnedMissing := st.warnedMissing ++ [normName n] } b
          right
          rw [he]
          simp
    · by_cases hex : existsGirModules st.girModules [normName m] = true
      · rw [if_pos hex]
        exact ih st b n hn hdoc
      · rw [if_neg hex]
        cases hdocm : docs (normName m) with
        | none =>
          dsimp only
          by_cases hfail : normName m ∈ st.failed
          · rw [if_pos hfail]
            exact ih st b n hn hdoc
          · rw [if_neg hfail]
            exact ih _ b n hn hdoc
        | some girModule =>
          dsimp only
          by_cases hpk : girModule.packageName = ""
          · rw [if_pos hpk]
            exact ih _ b n hn hdoc
          · rw [if_neg hpk]
            exact ih _ true n hn hdoc

/-- The state at the start of a run: everything empty. -/
def initLoadState : LoadState :=
  ⟨[], [], [], [], []⟩

/-- C6: When no document is found for a requested or transitively-required
package name, `loadGirModules` adds the name to the `failed` set and
continues (the run still produces its result; the missing document is
non-fatal), and the missing-file warning is emitted at most once per
distinct name even across repeated passes: the warning log never holds a
duplicate name.  (A requested name escapes `failed` only when a module with
that very package name was loaded.) -/
theorem loadGirModules_missing_nonfatal :
    ∀ (docs : String → Option GirModule) (fuel : Nat) (toRead ignoreDeps : List String),
      (loadGirModules docs fuel toRead ignoreDeps ResolveType.byHand
          initLoadState).warnedMissing.Nodup ∧
      (∀ n ∈ toRead, docs (normName n) = none →
        normName n ∉ girNames (loadGirModules docs fuel toRead ignoreDeps
          ResolveType.byHand initLoadState) →
        normName n ∈ (loadGirModules docs fuel toRead ignoreDeps
          ResolveType.byHand initLoadState).failed) := by
  intro docs fuel toRead ignoreDeps
  constructor
  · obtain ⟨_, _, hw⟩ := (load_extends fuel).1 docs toRead ignoreDeps ResolveType.byHand
      initLoadState
    exact (hw ⟨List.nodup_nil, by simp [initLoadState]⟩).1
  · intro n hn hdoc hnot
    obtain ⟨⟨e1, he1⟩, ⟨e2, he2⟩, _⟩ :=
      loadGirModules_extends_pass docs fuel toRead ignoreDeps ResolveType.byHand initLoadState
    rcases loadPass_missing docs ResolveType.byHand toRead initLoadState false n hn hdoc with
      h | h
    · exact absurd (he2 ▸ List.mem_append.mpr (Or.inl h)) hnot
    · rw [he1]
      exact List.mem_append.mpr (Or.inl h)

/-- Witness for C6: a run where every document is missing records the
requested name in `failed` and warns exactly once. -/
theorem loadGirModules_missing_nonfatal_witness :
    (loadGirModules (fun _ => none) 0 ["Foo-1.0"] [] ResolveType.byHand
        initLoadState).warnedMissing.Nodup ∧
    normName "Foo-1.0" ∈ (loadGirModules (fun _ => none) 0 ["Foo-1.0"] [] ResolveType.byHand
        initLoadState).failed :=
  ⟨(loadGirModules_missing_nonfatal (fun _ => none) 0 ["Foo-1.0"] []).1,
    (loadGirModules_missing_nonfatal (fun _ => none) 0 ["Foo-1.0"] []).2 "Foo-1.0"
      (by decide) rfl (by decide)⟩
